import Mathlib

/-!
Shallow embedding of the game engines, response parsing, decision policies
and RL training-update code of the Connect 4 / Blackjack repository,
together with theorems checking the specification's claims against it.

Source files embedded:
  - src/connect4/game_engine.py       (Connect4Game)
  - src/connect4/llm_interface.py     (LLMInterface.get_response / fallback)
  - src/llm_blackjack/game_engine.py  (Card, Deck, Hand, BlackjackGame)
  - src/llm_blackjack/rl_interface.py (MonteCarloAgent / DeepQAgent get_action)
  - src/llm_blackjack/train_rl_agents.py (BlackjackEnvironment, train_monte_carlo)
-/

namespace Connect4

/-- State of `Connect4Game`: `board` is 7 columns of 6 rows (row 0 at the top),
cells are 0 = empty, 1 = player 1, 2 = player 2, exactly as laid out by
`reset_game`.  `winner = none` while undecided, `some 0` = draw,
`some p` = player `p` won. -/
structure C4State where
  board : List (List ℕ)
  current_player : ℕ
  game_over : Bool
  winner : Option ℕ
  last_move : Option (ℕ × ℕ)
  moves_count : ℕ
deriving Repr, DecidableEq

/-- `reset_game`: a 7×6 all-zero board, player 1 to move. -/
def resetState : C4State :=
  { board := List.replicate 7 (List.replicate 6 0)
    current_player := 1
    game_over := false
    winner := none
    last_move := none
    moves_count := 0 }

/-- Cell lookup `board[column][row]` (both indices in range whenever the
well-formedness invariant holds; the default 0 is never consulted then). -/
def cell (board : List (List ℕ)) (c r : ℕ) : ℕ :=
  (board.getD c []).getD r 0

/-- The loop `for row in range(5, -1, -1): if board[column][row] == 0: ...`
of `make_move`, unrolled: the first empty row scanning from the bottom
(row 5) upward. -/
def findEmptyRow (col : List ℕ) : Option ℕ :=
  if col.getD 5 0 = 0 then some 5
  else if col.getD 4 0 = 0 then some 4
  else if col.getD 3 0 = 0 then some 3
  else if col.getD 2 0 = 0 then some 2
  else if col.getD 1 0 = 0 then some 1
  else if col.getD 0 0 = 0 then some 0
  else none

/-- Inner loop of `_check_win`: starting from `(x, y)`, step up to `n` times
by `(dx, dy)`, counting consecutive in-bounds cells owned by `player` and
stopping at the first failure (`for _ in range(3): ... else: break`). -/
def countDir (board : List (List ℕ)) (player : ℕ) :
    ℤ → ℤ → ℤ → ℤ → ℕ → ℕ
  | _, _, _, _, 0 => 0
  | x, y, dx, dy, n + 1 =>
    let x' := x + dx
    let y' := y + dy
    if 0 ≤ x' ∧ x' < 7 ∧ 0 ≤ y' ∧ y' < 6 ∧ cell board x'.toNat y'.toNat = player
    then 1 + countDir board player x' y' dx dy n
    else 0

/-- The direction pairs of `_check_win`. -/
def directions : List ((ℤ × ℤ) × (ℤ × ℤ)) :=
  [((0, 1), (0, -1)), ((1, 0), (-1, 0)), ((1, 1), (-1, -1)), ((1, -1), (-1, 1))]

/-- `_check_win(col, row)`: 1 for the placed piece plus consecutive
same-player pieces in both directions of some axis reaches 4. -/
def checkWin (board : List (List ℕ)) (c r : ℕ) : Bool :=
  let player := cell board c r
  directions.any fun dp =>
    decide (4 ≤ 1 + countDir board player c r dp.1.1 dp.1.2 3
              + countDir board player c r dp.2.1 dp.2.2 3)

/-- `make_move(column)`: returns the updated state and the boolean result.
Rejects when the game is over or the column is out of `[0, 6]`; otherwise
drops the current player's piece into the lowest empty row (if any), then
checks win, then draw (`moves_count == 42`), else switches player. -/
def makeMove (s : C4State) (column : ℤ) : C4State × Bool :=
  if s.game_over ∨ column < 0 ∨ column > 6 then (s, false)
  else
    let c := column.toNat
    match findEmptyRow (s.board.getD c []) with
    | none => (s, false)  -- column is full
    | some r =>
      let board' := s.board.set c ((s.board.getD c []).set r s.current_player)
      let s' := { s with board := board'
                         last_move := some (c, r)
                         moves_count := s.moves_count + 1 }
      if checkWin board' c r then
        ({ s' with game_over := true, winner := some s'.current_player }, true)
      else if s'.moves_count = 42 then
        ({ s' with game_over := true, winner := some 0 }, true)
      else
        ({ s' with current_player := 3 - s'.current_player }, true)

/-- States reachable from `reset_game` by any sequence of `make_move` calls. -/
inductive Reachable : C4State → Prop
  | init : Reachable resetState
  | step (s : C4State) (column : ℤ) : Reachable s → Reachable (makeMove s column).1

end Connect4

namespace Connect4

/-- A concrete 41-piece position: column 0 has only its top cell empty, with
player 1 owning rows 1–3 of column 0, so player 1's 42nd piece at column 0
completes a vertical four-in-a-row. -/
def lastMoveWinState : C4State :=
  { board := [[0, 1, 1, 1, 2, 2],
              [2, 1, 2, 1, 2, 1],
              [1, 2, 1, 2, 1, 2],
              [2, 1, 2, 1, 2, 1],
              [1, 2, 1, 2, 1, 2],
              [2, 1, 2, 1, 2, 1],
              [1, 2, 1, 2, 1, 2]]
    current_player := 1
    game_over := false
    winner := none
    last_move := some (6, 0)
    moves_count := 41 }

end Connect4

open Connect4 in
/-- C1: in `make_move` the win check precedes the draw check: whenever the
42nd piece (moves_count goes from 41 to 42) is placed and `_check_win`
succeeds on the resulting board, the game ends with `winner` = the player
who moved, not `winner = 0` (a draw). -/
theorem C1_win_check_before_draw_check (s : C4State) (column : ℤ) (r : ℕ)
    (hgo : s.game_over = false) (hmc : s.moves_count = 41)
    (h0 : 0 ≤ column) (h6 : column ≤ 6) (hp : s.current_player ≠ 0)
    (hfind : findEmptyRow (s.board.getD column.toNat []) = some r)
    (hwin : checkWin
      (s.board.set column.toNat
        ((s.board.getD column.toNat []).set r s.current_player))
      column.toNat r = true) :
    (makeMove s column).1.winner = some s.current_player ∧
    (makeMove s column).1.game_over = true ∧
    (makeMove s column).1.winner ≠ some 0 := by
  unfold makeMove
  rw [if_neg (by simp [hgo]; omega)]
  simp only [hfind, hwin, if_true]
  simp [hp]

open Connect4 in
/-- Witness for C1: in `lastMoveWinState`, player 1 drops the 42nd piece in
column 0, completing a vertical four; the result is a win for player 1. -/
theorem C1_win_check_before_draw_check_witness :
    (makeMove lastMoveWinState 0).1.winner = some lastMoveWinState.current_player ∧
    (makeMove lastMoveWinState 0).1.game_over = true ∧
    (makeMove lastMoveWinState 0).1.winner ≠ some 0 :=
  C1_win_check_before_draw_check lastMoveWinState 0 0 rfl rfl (by decide)
    (by decide) (by decide) (by decide) (by decide)

namespace Blackjack

/-- Python text is modelled as a list of characters. -/
abbrev Str := List Char

/-- Python `str.isspace` characters relevant to `str.split` / `str.strip`. -/
def pySpace (c : Char) : Bool :=
  c == ' ' || c == '\t' || c == '\n' || c == '\r' || c == '\x0b' || c == '\x0c'

/-- Python `str.strip()`: drop leading and trailing whitespace. -/
def pyStrip (s : Str) : Str :=
  ((s.dropWhile pySpace).reverse.dropWhile pySpace).reverse

/-- Python `str.upper()` (ASCII case mapping suffices for the texts involved). -/
def pyUpper (s : Str) : Str := s.map Char.toUpper

/-- Python `needle in haystack`: substring containment. -/
def containsSub (needle : Str) : Str → Bool
  | [] => needle.isEmpty
  | c :: t => needle.isPrefixOf (c :: t) || containsSub needle t

/-- Accumulator-based scanner behind `pyWords`: `acc` holds the current word
reversed. -/
def pyWordsAux : Str → Str → List Str
  | [], acc => if acc.isEmpty then [] else [acc.reverse]
  | c :: t, acc =>
    if pySpace c then
      if acc.isEmpty then pyWordsAux t [] else acc.reverse :: pyWordsAux t []
    else pyWordsAux t (c :: acc)

/-- Python `str.split()` with no separator: split on whitespace runs,
discarding empty pieces. -/
def pyWords (s : Str) : List Str := pyWordsAux s []

/-- Everything after the first occurrence of `sep`
(Python `s.split(sep, 1)[1]` when `sep in s`). -/
def afterFirst (sep : Str) : Str → Str
  | [] => []
  | c :: t => if sep.isPrefixOf (c :: t) then (c :: t).drop sep.length
              else afterFirst sep t

/-- The closing sentinel tag of a reasoning segment. -/
def thinkClose : Str := "</think>".toList

end Blackjack

namespace Blackjack

/-- The two Blackjack actions a response can resolve to. -/
inductive BJAction
  | hit
  | stand
deriving DecidableEq, Repr

/-- The common normalization of `process_player_llm_response` and
`process_dealer_llm_response`: if `</think>` occurs, keep only the text
after its first occurrence and strip it; then strip and uppercase. -/
def normalizeResponse (resp : Str) : Str :=
  let r := if containsSub thinkClose resp
           then pyStrip (afterFirst thinkClose resp) else resp
  pyUpper (pyStrip r)

/-- The final fallback of both response processors: `STAND` anywhere in the
text (checked first, as the safer option), else `HIT` anywhere, else no
recognizable action. -/
def fallbackScan (r : Str) : Option BJAction :=
  if containsSub "STAND".toList r then some .stand
  else if containsSub "HIT".toList r then some .hit
  else none

/-- The action-resolution pipeline shared verbatim by
`process_player_llm_response` and `process_dealer_llm_response`:
(1) exact match after normalization; (2) `HIT` / `STAND` as a substring of
the last whitespace-delimited word; (3) `fallbackScan`. `none` means the
processor returns the invalid-response message. -/
def resolveAction (resp : Str) : Option BJAction :=
  let r := normalizeResponse resp
  if r = "HIT".toList then some .hit
  else if r = "STAND".toList then some .stand
  else
    match (pyWords r).getLast? with
    | some w =>
      if containsSub "HIT".toList w then some .hit
      else if containsSub "STAND".toList w then some .stand
      else fallbackScan r
    | none => fallbackScan r

end Blackjack

namespace Blackjack

/-- A card: its `value` in `Card.__init__` is `CARD_VALUES[rank]`, so only
the rank and the `hidden` flag are state. -/
structure BJCard where
  rank : String
  hidden : Bool
deriving DecidableEq, Repr

/-- The `CARD_VALUES` table (aces are 11 by default). Ranks outside the
table never occur (the deck is built from `RANKS`). -/
def cardValue : String → ℕ
  | "2" => 2 | "3" => 3 | "4" => 4 | "5" => 5 | "6" => 6
  | "7" => 7 | "8" => 8 | "9" => 9 | "10" => 10
  | "J" => 10 | "Q" => 10 | "K" => 10 | "A" => 11
  | _ => 0

/-- The `while value > 21 and num_aces > 0: value -= 10; num_aces -= 1`
loop of `Hand.get_value` (and of `BlackjackEnvironment._get_sum`). -/
def reduceAces : ℕ → ℕ → ℕ
  | v, 0 => v
  | v, n + 1 => if 21 < v then reduceAces (v - 10) n else v

/-- `Hand.get_value`: sum of non-hidden card values, then the soft-ace
reduction over the number of non-hidden aces. -/
def handValue (cards : List BJCard) : ℕ :=
  let base := ((cards.filter fun c => !c.hidden).map fun c => cardValue c.rank).sum
  let numAces := (cards.filter fun c => !c.hidden && c.rank == "A").length
  reduceAces base numAces

/-- State of `BlackjackGame`: the deck, both hands, and the terminal data.
`winner` is the Python string `"player"`, `"dealer"` or `"tie"`. -/
structure BJState where
  deck : List BJCard
  player_hand : List BJCard
  dealer_hand : List BJCard
  game_over : Bool
  winner : Option String
  message : String
deriving DecidableEq, Repr

/-- `Deck.deal`: pop from the end of the card list. (When the deck is
exhausted, Python reshuffles a fresh 52-card deck; no claim exercises
that branch, so an empty deck yields a placeholder.) -/
def deal (d : List BJCard) : BJCard × List BJCard :=
  match d.getLast? with
  | some c => (c, d.dropLast)
  | none => (⟨"A", false⟩, [])

/-- `self.dealer_hand.cards[0].hidden = False`: reveal the hole card. -/
def revealHole : List BJCard → List BJCard
  | [] => []
  | c :: t => { c with hidden := false } :: t

/-- The `while self.dealer_hand.get_value() < 17: add_card(deal())` loop of
`player_stand`, with explicit fuel (the fuel used always exceeds the number
of iterations possible, so it is never exhausted on the inputs considered). -/
def dealerLoop : ℕ → List BJCard → List BJCard → List BJCard × List BJCard
  | 0, deck, hand => (deck, hand)
  | f + 1, deck, hand =>
    if handValue hand < 17 then
      let (c, deck') := deal deck
      dealerLoop f deck' (hand ++ [c])
    else (deck, hand)

/-- `BlackjackGame.player_stand`: no-op when terminal; otherwise reveal the
hole card, let the dealer draw to 17, and score. -/
def playerStand (s : BJState) : BJState :=
  if s.game_over then s
  else
    let dealer0 := revealHole s.dealer_hand
    let res := dealerLoop (s.deck.length + 32) s.deck dealer0
    let dealer' := res.2
    let dv := handValue dealer'
    let pv := handValue s.player_hand
    let base := { s with deck := res.1, dealer_hand := dealer', game_over := true }
    if 21 < dv then
      { base with winner := some "player", message := "Dealer busts! Player wins!" }
    else if pv < dv then
      { base with winner := some "dealer", message := "Dealer wins!" }
    else if dv < pv then
      { base with winner := some "player", message := "Player wins!" }
    else
      { base with winner := some "tie", message := "It\x27s a tie!" }

/-- `BlackjackGame.player_hit`: no-op when terminal; draw one card; on bust
terminate with a dealer win and reveal the hole card; on exactly 21
automatically stand. -/
def playerHit (s : BJState) : BJState :=
  if s.game_over then s
  else
    let dealt := deal s.deck
    let ph := s.player_hand ++ [dealt.1]
    let s1 := { s with deck := dealt.2, player_hand := ph }
    if 21 < handValue ph then
      { s1 with game_over := true, winner := some "dealer",
                message := "Player busts! Dealer wins!",
                dealer_hand := revealHole s1.dealer_hand }
    else if handValue ph = 21 then playerStand s1
    else s1

/-- The invalid-response message returned by both response processors. -/
def invalidMsg : String := "Invalid response. Please respond with HIT or STAND."

/-- `BlackjackGame.process_player_llm_response`: resolve the action with
the shared pipeline, then apply `player_hit` / `player_stand`; returns the
updated state and the returned string. -/
def processPlayer (s : BJState) (resp : Str) : BJState × String :=
  match resolveAction resp with
  | some .hit => (playerHit s, "HIT")
  | some .stand => (playerStand s, "STAND")
  | none => (s, invalidMsg)

/-- The corrective message of `_process_dealer_stand` for value below 17. -/
def mustHitMsg : String :=
  "As the dealer, you must hit until your hand value is at least 17."

/-- `BlackjackGame._process_dealer_stand`: reject the stand with a
corrective message when the dealer value is below 17 (no state change);
otherwise score the game and mark it terminal. -/
def processDealerStand (s : BJState) : BJState × String :=
  let dv := handValue s.dealer_hand
  let pv := handValue s.player_hand
  if dv < 17 then (s, mustHitMsg)
  else if pv < dv then
    ({ s with winner := some "dealer", message := "Dealer wins!",
              game_over := true }, "Dealer wins!")
  else if dv < pv then
    ({ s with winner := some "player", message := "Player wins!",
              game_over := true }, "Player wins!")
  else
    ({ s with winner := some "tie", message := "It\x27s a tie!",
              game_over := true }, "It\x27s a tie!")

/-- The HIT branch of `process_dealer_llm_response` (repeated verbatim in
its three arms): the dealer draws a card — with no terminal-state guard —
and the game ends with a player win if the dealer busts. -/
def dealerHit (s : BJState) : BJState × String :=
  let dealt := deal s.deck
  let dh := s.dealer_hand ++ [dealt.1]
  let s1 := { s with deck := dealt.2, dealer_hand := dh }
  if 21 < handValue dh then
    ({ s1 with game_over := true, winner := some "player",
               message := "Dealer busts! Player wins!" },
     "Dealer hits and busts! Player wins!")
  else
    (s1, "Dealer hits and now has a visible hand value of "
           ++ toString (handValue dh))

/-- `BlackjackGame.process_dealer_llm_response`: the same resolution
pipeline as the player variant, dispatching to the dealer hit step or
`_process_dealer_stand`. Note: unlike `player_hit` / `player_stand`,
there is no `game_over` guard anywhere on this path. -/
def processDealer (s : BJState) (resp : Str) : BJState × String :=
  match resolveAction resp with
  | some .hit => dealerHit s
  | some .stand => processDealerStand s
  | none => (s, invalidMsg)

end Blackjack

namespace Blackjack

/-- Visible ace. -/
def aceCard : BJCard := ⟨"A", false⟩

/-- Visible six. -/
def sixCard : BJCard := ⟨"6", false⟩

/-- Visible queen. -/
def queenCard : BJCard := ⟨"Q", false⟩

/-- Visible nine. -/
def nineCard : BJCard := ⟨"9", false⟩

end Blackjack

open Blackjack in
/-- C4: `Hand.get_value` sums non-hidden card values and downgrades aces
from 11 to 1 one at a time while the total exceeds 21: hidden cards are
ignored, [Ace, 6] = 17, [Ace, 6, Q] = 17, [Ace, Ace, 9] = 21. -/
theorem C4_hand_value_soft_ace (c : BJCard) (rest : List BJCard)
    (hhid : c.hidden = true) :
    handValue (c :: rest) = handValue rest ∧
    handValue [aceCard, sixCard] = 17 ∧
    handValue [aceCard, sixCard, queenCard] = 17 ∧
    handValue [aceCard, aceCard, nineCard] = 21 := by
  refine ⟨?_, by decide, by decide, by decide⟩
  unfold handValue
  simp [List.filter_cons, hhid]

open Blackjack in
/-- Witness for C4: a hidden king contributes nothing to [hidden K, A, 6]. -/
theorem C4_hand_value_soft_ace_witness :
    handValue [⟨"K", true⟩, aceCard, sixCard] = handValue [aceCard, sixCard] ∧
    handValue [aceCard, sixCard] = 17 ∧
    handValue [aceCard, sixCard, queenCard] = 17 ∧
    handValue [aceCard, aceCard, nineCard] = 21 :=
  C4_hand_value_soft_ace ⟨"K", true⟩ [aceCard, sixCard] rfl

open Blackjack in
/-- C5: the player-response pipeline strips reasoning up to `</think>`,
uppercases, and resolves with precedence exact / last-word substring /
STAND-anywhere-before-HIT-anywhere: "HIT" resolves to HIT, "I think I
should STAND here" to STAND, "HIT or STAND? I'll STAND" to STAND; and the
invalid-response report only happens when neither keyword occurs at all in
the normalized text. -/
theorem C5_response_resolution_precedence (resp : Str)
    (hnone : resolveAction resp = none) :
    (containsSub "STAND".toList (normalizeResponse resp) = false ∧
     containsSub "HIT".toList (normalizeResponse resp) = false) ∧
    resolveAction "HIT".toList = some .hit ∧
    resolveAction "I think I should STAND here".toList = some .stand ∧
    resolveAction "HIT or STAND? I\x27ll STAND".toList = some .stand := by
  refine ⟨?_, by decide, by decide, by decide⟩
  simp only [resolveAction, fallbackScan] at hnone
  rcases hw : (pyWords (normalizeResponse resp)).getLast? with _ | w <;>
    rw [hw] at hnone <;> split_ifs at hnone <;> simp_all <;>
    split_ifs at hnone <;> simp_all

open Blackjack in
/-- Witness for C5: "xyz" resolves to no action, so neither keyword occurs
in its normalized form; the three mapping examples hold. -/
theorem C5_response_resolution_precedence_witness :
    (containsSub "STAND".toList (normalizeResponse "xyz".toList) = false ∧
     containsSub "HIT".toList (normalizeResponse "xyz".toList) = false) ∧
    resolveAction "HIT".toList = some .hit ∧
    resolveAction "I think I should STAND here".toList = some .stand ∧
    resolveAction "HIT or STAND? I\x27ll STAND".toList = some .stand :=
  C5_response_resolution_precedence "xyz".toList (by decide)

namespace Blackjack

/-- A finished game (dealer won with 19 against 20? — the scores are
irrelevant; only `game_over = True` matters) with one card left in the
deck, used to probe the terminal-state behaviour of
`process_dealer_llm_response`. -/
def doneState : BJState :=
  { deck := [⟨"5", false⟩]
    player_hand := [⟨"K", false⟩, ⟨"Q", false⟩]
    dealer_hand := [⟨"K", false⟩, nineCard]
    game_over := true
    winner := some "dealer"
    message := "Dealer wins!" }

end Blackjack

open Blackjack in
/-- Counterexample to C2: `process_dealer_llm_response` has no terminal
guard. In the finished game `doneState` (winner already "dealer"), a
response of "HIT" still deals the dealer a card — the dealer hand and deck
change and the recorded winner flips to "player". -/
theorem C2_terminal_counterexample :
    doneState.game_over = true ∧
    (processDealer doneState "HIT".toList).1.dealer_hand
      ≠ doneState.dealer_hand ∧
    (processDealer doneState "HIT".toList).1.deck ≠ doneState.deck ∧
    doneState.winner = some "dealer" ∧
    (processDealer doneState "HIT".toList).1.winner = some "player" := by
  decide

open Blackjack in
open Connect4 in
/-- C2 amended: after the game is terminal, `Connect4Game.make_move`
returns `False` with the state unchanged, and the Blackjack paths
`player_hit`, `player_stand` and `process_player_llm_response` leave the
state unchanged — but `process_dealer_llm_response` does not (see the
counterexample). -/
theorem C2_terminal_state_unchanged (cs : C4State) (column : ℤ)
    (s : BJState) (resp : Str)
    (hcs : cs.game_over = true) (hs : s.game_over = true) :
    makeMove cs column = (cs, false) ∧
    playerHit s = s ∧
    playerStand s = s ∧
    (processPlayer s resp).1 = s := by
  refine ⟨?_, ?_, ?_, ?_⟩
  · simp [makeMove, hcs]
  · simp [playerHit, hs]
  · simp [playerStand, hs]
  · unfold processPlayer
    rcases resolveAction resp with _ | a
    · rfl
    · cases a
      · simp [playerHit, hs]
      · simp [playerStand, hs]

open Blackjack in
open Connect4 in
/-- Witness for amended C2: the terminal states `lastMoveWinState` after
its winning move and `doneState`, with a "HIT" response. -/
theorem C2_terminal_state_unchanged_witness :
    makeMove (makeMove lastMoveWinState 0).1 3
      = ((makeMove lastMoveWinState 0).1, false) ∧
    playerHit doneState = doneState ∧
    playerStand doneState = doneState ∧
    (processPlayer doneState "HIT".toList).1 = doneState :=
  C2_terminal_state_unchanged (makeMove lastMoveWinState 0).1 3 doneState
    "HIT".toList (by decide) (by decide)

namespace Blackjack

/-- A live game in which the dealer's visible value is 9 (below 17),
used to exercise the dealer-stand rejection. -/
def lowDealerState : BJState :=
  { deck := [⟨"5", false⟩, ⟨"7", false⟩]
    player_hand := [⟨"K", false⟩, queenCard]
    dealer_hand := [⟨"K", true⟩, nineCard]
    game_over := false
    winner := none
    message := "" }

end Blackjack

open Blackjack in
/-- C3: a dealer response resolving to STAND while the dealer hand value is
below 17 is rejected: the corrective message is returned and the state —
winner and game_over included — is unchanged; consequently a dealer-stand
resolution that does end the game only happens at dealer value ≥ 17. -/
theorem C3_dealer_stand_rejected_below_17 (s : BJState) (resp : Str)
    (hstand : resolveAction resp = some .stand) :
    (handValue s.dealer_hand < 17 → processDealer s resp = (s, mustHitMsg)) ∧
    (s.game_over = false → (processDealer s resp).1.game_over = true →
      17 ≤ handValue s.dealer_hand) := by
  have hpd : processDealer s resp = processDealerStand s := by
    unfold processDealer
    rw [hstand]
  constructor
  · intro hlt
    rw [hpd]
    unfold processDealerStand
    rw [if_pos hlt]
  · intro hgo hafter
    by_contra hnot
    rw [hpd] at hafter
    unfold processDealerStand at hafter
    rw [if_pos (by omega)] at hafter
    simp only [] at hafter
    rw [hgo] at hafter
    exact Bool.false_ne_true hafter

open Blackjack in
/-- Witness for C3: in `lowDealerState` (visible dealer value 9) a "STAND"
response is rejected with the corrective message and no state change. -/
theorem C3_dealer_stand_rejected_below_17_witness :
    (handValue lowDealerState.dealer_hand < 17 →
      processDealer lowDealerState "STAND".toList = (lowDealerState, mustHitMsg)) ∧
    (lowDealerState.game_over = false →
      (processDealer lowDealerState "STAND".toList).1.game_over = true →
      17 ≤ handValue lowDealerState.dealer_hand) :=
  C3_dealer_stand_rejected_below_17 lowDealerState "STAND".toList (by decide)

namespace RL

/-- The player-sum / usable-ace computation shared by
`MonteCarloAgent.get_action` and `DeepQAgent.get_action`:
`usable_ace = 11 in player_cards and sum(player_cards) > 21`, and if so a
single ace is converted from 11 to 1. Returns (reduced sum, flag). -/
def agentReduce (cards : List ℕ) : ℕ × Bool :=
  let s := cards.sum
  let ua := cards.contains 11 && decide (21 < s)
  (if ua then s - 10 else s, ua)

/-- `MonteCarloAgent.get_action`. Randomness is passed in as oracles:
`randLtEps` is `random.random() < self.epsilon` and `randChoice` is
`random.choice([0, 1])`; `policy` is the lookup table (`none` = state not
present, in which case the default "hit below 17" policy is installed and
used). -/
def mcGetAction (cards : List ℕ) (dealerCard : ℕ)
    (randLtEps : Bool) (randChoice : Fin 2)
    (policy : ℕ × ℕ × Bool → Option ℕ) : ℕ :=
  let red := agentReduce cards
  let state := (red.1, dealerCard, red.2)
  if 21 ≤ red.1 then 0
  else if randLtEps then (randChoice : ℕ)
  else match policy state with
    | some a => a
    | none => if red.1 < 17 then 1 else 0

/-- `DeepQAgent.get_action`. The trained network's argmax over its two
Q-outputs is abstracted as the oracle `netArgmax`; the guard structure is
the source's. -/
def dqGetAction (cards : List ℕ) (dealerCard : ℕ)
    (randLtEps : Bool) (randChoice : Fin 2)
    (netArgmax : ℕ × ℕ × Bool → Fin 2) : ℕ :=
  let red := agentReduce cards
  if 21 ≤ red.1 then 0
  else if randLtEps then (randChoice : ℕ)
  else (netArgmax (red.1, dealerCard, red.2) : ℕ)

/-- `BlackjackEnvironment._get_sum`: total with every ace converted from 11
to 1 while the total exceeds 21 (the same loop as `Hand.get_value`). -/
def envSum (cards : List ℕ) : ℕ :=
  Blackjack.reduceAces cards.sum (cards.count 11)

/-- `BlackjackEnvironment._get_state`: (reduced player sum, dealer visible
card, usable-ace flag) with `usable_ace = 11 in player_cards and
player_sum <= 21`. -/
def envState (cards : List ℕ) (dealerCard : ℕ) : ℕ × ℕ × Bool :=
  (envSum cards, dealerCard, cards.contains 11 && decide (envSum cards ≤ 21))

/-- The usable-ace flag of the serving-time agents. -/
def agentUsableAce (cards : List ℕ) : Bool := (agentReduce cards).2

/-- The usable-ace flag of the training environment. -/
def envUsableAce (cards : List ℕ) : Bool := (envState cards 0).2.2

/-- The equality test `Q.get(k0, -inf) != Q.get(k1, -inf)` of the policy
update in `train_monte_carlo`, with `none` standing for an absent key:
two absent keys compare equal (`-inf == -inf`), an absent key never equals
a present one, present values compare by value. -/
def eqNegInfDefault : Option ℚ → Option ℚ → Bool
  | none, none => true
  | some a, some b => a == b
  | _, _ => false

/-- The per-state policy update at the end of each `train_monte_carlo`
episode:
`if state not in policy or Q.get((s,0),-inf) != Q.get((s,1),-inf):
   policy[s] = 0 if Q.get((s,0),0) > Q.get((s,1),0) else 1`.
`oldPol` is the existing policy entry, `q0`/`q1` the Q entries for
STAND (0) and HIT (1). -/
def policyUpdate (oldPol : Option ℕ) (q0 q1 : Option ℚ) : Option ℕ :=
  if oldPol = none ∨ eqNegInfDefault q0 q1 = false then
    some (if q0.getD 0 > q1.getD 0 then 0 else 1)
  else oldPol

end RL

open RL in
/-- Counterexample to C6: in the `train_monte_carlo` policy update, a state
absent from the policy whose two Q-values tie (here both 1) is assigned
action 1 (HIT), not 0 (STAND): `0 if Q0 > Q1 else 1` falls to the `else`
on a tie. -/
theorem C6_tie_counterexample :
    policyUpdate none (some 1) (some 1) ≠ some 0 ∧
    policyUpdate none (some 1) (some 1) = some 1 := by
  decide

open RL in
/-- C6 amended: the episode-end update makes the policy greedy whenever the
two present Q-values differ; on a tie it assigns HIT (action 1) if the
state has no policy entry yet, and leaves an existing entry unchanged
(the update is skipped). -/
theorem C6_policy_update_greedy_tie_to_hit (q0 q1 : ℚ) (old : Option ℕ)
    (p : ℕ) :
    (q0 ≠ q1 → policyUpdate old (some q0) (some q1)
      = some (if q0 > q1 then 0 else 1)) ∧
    (q0 = q1 → policyUpdate none (some q0) (some q1) = some 1) ∧
    (q0 = q1 → policyUpdate (some p) (some q0) (some q1) = some p) := by
  refine ⟨fun hne => ?_, fun heq => ?_, fun heq => ?_⟩
  · simp [policyUpdate, eqNegInfDefault, hne]
  · subst heq
    simp [policyUpdate, eqNegInfDefault]
  · subst heq
    simp [policyUpdate, eqNegInfDefault]

open RL in
/-- Witness for amended C6: distinct values 2 > 1 give a greedy STAND for a
fresh state; tied values give HIT for a fresh state and keep an existing
entry 0. -/
theorem C6_policy_update_greedy_tie_to_hit_witness :
    (policyUpdate none (some 2) (some 1) = some (if (2 : ℚ) > 1 then 0 else 1)) ∧
    (policyUpdate none (some 3) (some 3) = some 1) ∧
    (policyUpdate (some 0) (some 3) (some 3) = some 0) :=
  have h := C6_policy_update_greedy_tie_to_hit 3 3 none 0
  ⟨(C6_policy_update_greedy_tie_to_hit 2 1 none 0).1 (by norm_num),
   h.2.1 rfl, h.2.2 rfl⟩

open RL in
/-- Counterexample to C7: on the hand [Ace, 6] the serving-time agents
compute `usable_ace = (11 in cards and sum > 21) = False` while the
training environment computes `usable_ace = (11 in cards and
reduced_sum <= 21) = True` — the state keys disagree. -/
theorem C7_usable_ace_counterexample :
    agentUsableAce [11, 6] = false ∧ envUsableAce [11, 6] = true := by
  decide

open RL in
/-- C7 amended: the two usable-ace flags do not agree; on every genuinely
soft hand — an ace present and raw sum (aces as 11) at most 21 — the
agents report `false` while the training environment reports `true`. -/
theorem C7_usable_ace_flags_disagree (cards : List ℕ)
    (hace : cards.contains 11 = true) (hsum : cards.sum ≤ 21) :
    agentUsableAce cards = false ∧ envUsableAce cards = true := by
  have hred : ∀ n, Blackjack.reduceAces cards.sum n = cards.sum := by
    intro n
    induction n with
    | zero => rfl
    | succ k ih =>
      unfold Blackjack.reduceAces
      rw [if_neg (by omega)]
  constructor
  · simp [agentUsableAce, agentReduce]
    omega
  · have hmem : 11 ∈ cards := by simpa using hace
    simp [envUsableAce, envState, envSum, hred, hsum, hmem]

open RL in
/-- Witness for amended C7: the hand [Ace, 6]. -/
theorem C7_usable_ace_flags_disagree_witness :
    agentUsableAce [11, 6] = false ∧ envUsableAce [11, 6] = true :=
  C7_usable_ace_flags_disagree [11, 6] (by decide) (by decide)

open RL in
/-- C10: both agents return STAND (0) deterministically whenever the
soft-ace-reduced player sum is at least 21 — the `player_sum >= 21` guard
precedes the epsilon-greedy branch, so no choice of exploration oracle,
policy table or network output can produce a HIT. -/
theorem C10_stand_on_21_before_exploration (cards : List ℕ) (dealerCard : ℕ)
    (randLtEps : Bool) (randChoice : Fin 2)
    (policy : ℕ × ℕ × Bool → Option ℕ) (netArgmax : ℕ × ℕ × Bool → Fin 2)
    (h21 : 21 ≤ (agentReduce cards).1) :
    mcGetAction cards dealerCard randLtEps randChoice policy = 0 ∧
    dqGetAction cards dealerCard randLtEps randChoice netArgmax = 0 := by
  constructor
  · unfold mcGetAction
    rw [if_pos h21]
  · unfold dqGetAction
    rw [if_pos h21]

open RL in
/-- Witness for C10: the hand [10, Ace] (value 21), with oracles that would
force HIT in every later branch, still yields STAND from both agents. -/
theorem C10_stand_on_21_before_exploration_witness :
    mcGetAction [10, 11] 10 true 1 (fun _ => some 1) = 0 ∧
    dqGetAction [10, 11] 10 true 1 (fun _ => 1) = 0 :=
  C10_stand_on_21_before_exploration [10, 11] 10 true 1
    (fun _ => some 1) (fun _ => 1) (by decide)

namespace LLM

open Blackjack (Str pyStrip containsSub thinkClose)

/-- The opening sentinel tag of a reasoning segment. -/
def thinkOpen : Str := "<think>".toList

/-- Text up to and including the first `</think>` (the non-greedy tail of
the regex `<think>([\s\S]*?)</think>`). -/
def takeThroughClose : Str → Option Str
  | [] => none
  | c :: t =>
    if thinkClose.isPrefixOf (c :: t) then some thinkClose
    else (takeThroughClose t).map (c :: ·)

/-- `re.search(r"<think>([\s\S]*?)</think>", s)`: the whole matched block
(group 0), when a `<think>` is followed somewhere by a `</think>`. -/
def matchThink : Str → Option Str
  | [] => none
  | c :: t =>
    if thinkOpen.isPrefixOf (c :: t) then
      (takeThroughClose ((c :: t).drop thinkOpen.length)).map (thinkOpen ++ ·)
    else matchThink t

/-- Python `s.replace(pat, "")`: delete every non-overlapping occurrence of
`pat`, scanning left to right. -/
def removeAll (pat : Str) : Str → Str
  | [] => []
  | c :: t =>
    if pat.isPrefixOf (c :: t) ∧ pat ≠ []
    then removeAll pat ((c :: t).drop pat.length)
    else c :: removeAll pat t
termination_by s => s.length
decreasing_by
  · rename_i h
    have : pat.length ≥ 1 := by
      rcases pat with _ | ⟨p, ps⟩
      · exact absurd rfl h.2
      · simp
    simp only [List.length_drop, List.length_cons]
    omega
  · simp only [List.length_cons]
    omega

/-- The `<think>` post-processing of the 200 branch of
`LLMInterface.get_response`: when both tags occur and the regex matches,
delete the matched block everywhere and strip. -/
def stripThink (content : Str) : Str :=
  if containsSub thinkOpen content ∧ containsSub thinkClose content then
    match matchThink content with
    | some block => pyStrip (removeAll block content)
    | none => content
  else content

/-- Outcome of the `requests.post` call in `get_response`: a completed
response (status code, extracted message content, raw body text), a
`requests.exceptions.Timeout`, or any other exception. -/
inductive ReqResult
  | completed (statusCode : ℕ) (content : Str) (bodyText : String)
  | timedOut
  | failed (excMsg : String)
deriving DecidableEq, Repr

/-- The metadata dictionary fields of `get_response` the claims speak
about: `status`, the presence of `"fallback": True`, and `"error"`. -/
structure LLMMeta where
  status : String
  fallbackUsed : Bool
  errorText : Option String
deriving DecidableEq, Repr

/-- `LLMInterface._get_fallback_response`: `str(random.randint(0, 6))`,
with the random draw passed in as an oracle. -/
def getFallbackResponse (d : Fin 7) : Str := (toString (d : ℕ)).toList

/-- `LLMInterface.get_response`, with the network outcome and the fallback
random draw as parameters. Every branch — non-200, timeout, any other
exception — returns a value rather than raising (the Python body catches
`requests.exceptions.Timeout` and `Exception`); conversation-history
bookkeeping, which does not affect the returned pair, is elided. -/
def getResponse (r : ReqResult) (d : Fin 7) : Str × LLMMeta :=
  match r with
  | .completed st content body =>
    if st = 200 then
      (stripThink content,
       { status := "success", fallbackUsed := false, errorText := none })
    else
      (getFallbackResponse d,
       { status := "error", fallbackUsed := true, errorText := some body })
  | .timedOut =>
    (getFallbackResponse d,
     { status := "timeout", fallbackUsed := true,
       errorText := some "Request timed out" })
  | .failed e =>
    (getFallbackResponse d,
     { status := "exception", fallbackUsed := true, errorText := some e })

/-- A failed request: non-200 status, timeout, or exception. -/
def isFailure : ReqResult → Bool
  | .completed st _ _ => decide (st ≠ 200)
  | .timedOut => true
  | .failed _ => true

/-- The error text each failure carries. -/
def failureError : ReqResult → String
  | .completed _ _ body => body
  | .timedOut => "Request timed out"
  | .failed e => e

end LLM

open LLM in
/-- C9: on every failure of the text-generation call (non-200 status,
timeout, or any other exception) `get_response` returns — instead of
propagating an exception — a single-digit fallback text in 0–6 together
with metadata carrying `fallback = True` and the error text. -/
theorem C9_fallback_on_failure (r : ReqResult) (d : Fin 7)
    (hfail : isFailure r = true) :
    (∃ n : ℕ, n ≤ 6 ∧ (getResponse r d).1 = (toString n).toList) ∧
    (getResponse r d).2.fallbackUsed = true ∧
    (getResponse r d).2.errorText = some (failureError r) := by
  have hd : (d : ℕ) ≤ 6 := by omega
  cases r with
  | completed st content body =>
    have hne : st ≠ 200 := by simpa [isFailure] using hfail
    simp only [getResponse]
    rw [if_neg hne]
    exact ⟨⟨d, hd, rfl⟩, rfl, rfl⟩
  | timedOut => exact ⟨⟨d, hd, rfl⟩, rfl, rfl⟩
  | failed e => exact ⟨⟨d, hd, rfl⟩, rfl, rfl⟩

open LLM in
/-- Witness for C9: a timeout with fallback draw 3. -/
theorem C9_fallback_on_failure_witness :
    (∃ n : ℕ, n ≤ 6 ∧ (getResponse .timedOut 3).1 = (toString n).toList) ∧
    (getResponse .timedOut 3).2.fallbackUsed = true ∧
    (getResponse .timedOut 3).2.errorText = some (failureError .timedOut) :=
  C9_fallback_on_failure .timedOut 3 (by decide)

namespace Connect4

/-- Per-column gravity, stated cell-by-cell: if the cell below (one row
deeper) is empty, this cell is empty. -/
def colOK (col : List ℕ) : Prop :=
  ∀ r, r < 5 → col.getD (r + 1) 0 = 0 → col.getD r 0 = 0

/-- Well-formedness invariant of `Connect4Game` states: a 7×6 board whose
columns satisfy gravity, and a current player in {1, 2}. -/
def WF (s : C4State) : Prop :=
  s.board.length = 7 ∧
  (∀ i, i < 7 → (s.board.getD i []).length = 6 ∧ colOK (s.board.getD i [])) ∧
  (s.current_player = 1 ∨ s.current_player = 2)

/-- `getD` after `set` at the written index. -/
theorem getD_set_self {α : Type} (l : List α) (n : ℕ) (a d : α)
    (h : n < l.length) : (l.set n a).getD n d = a := by
  rw [List.getD_eq_getElem _ _ (by simpa using h)]
  exact List.getElem_set_eq (by simpa using h)

/-- `getD` after `set` at a different index. -/
theorem getD_set_ne {α : Type} (l : List α) (n i : ℕ) (a d : α)
    (hne : i ≠ n) : (l.set n a).getD i d = l.getD i d := by
  rcases lt_or_ge i l.length with h | h
  · rw [List.getD_eq_getElem _ _ (by simpa using h), List.getD_eq_getElem _ _ h]
    exact List.getElem_set_ne (Ne.symm hne) (by simpa using h)
  · rw [List.getD_eq_default _ _ (by simpa using h), List.getD_eq_default _ _ h]

/-- A successful bottom-up scan returns an empty cell whose cell below
(when there is one) is occupied. -/
theorem findEmptyRow_some (col : List ℕ) (r : ℕ)
    (h : findEmptyRow col = some r) :
    r < 6 ∧ col.getD r 0 = 0 ∧ (r < 5 → col.getD (r + 1) 0 ≠ 0) := by
  unfold findEmptyRow at h
  split_ifs at h with h5 h4 h3 h2 h1 h0
  · cases h; exact ⟨by omega, h5, fun hr => absurd hr (by omega)⟩
  · cases h; exact ⟨by omega, h4, fun _ => h5⟩
  · cases h; exact ⟨by omega, h3, fun _ => h4⟩
  · cases h; exact ⟨by omega, h2, fun _ => h3⟩
  · cases h; exact ⟨by omega, h1, fun _ => h2⟩
  · cases h; exact ⟨by omega, h0, fun _ => h1⟩

/-- A failed bottom-up scan means every row is occupied. -/
theorem findEmptyRow_none (col : List ℕ)
    (h : findEmptyRow col = none) : ∀ r, r < 6 → col.getD r 0 ≠ 0 := by
  unfold findEmptyRow at h
  split_ifs at h with h5 h4 h3 h2 h1 h0
  any_goals cases h
  intro r hr
  interval_cases r <;> assumption

/-- Gravity propagated downward: an occupied cell has every cell below it
occupied. -/
theorem colOK_up (col : List ℕ) (hok : colOK col) :
    ∀ r' r, r ≤ r' → r' < 6 → col.getD r 0 ≠ 0 → col.getD r' 0 ≠ 0 := by
  intro r'
  induction r' with
  | zero =>
    intro r hle _ h
    have : r = 0 := by omega
    subst this
    exact h
  | succ n ih =>
    intro r hle hlt h
    by_cases hr : r = n + 1
    · subst hr; exact h
    · have hn : col.getD n 0 ≠ 0 := ih r (by omega) (by omega) h
      intro h0
      exact hn (hok n (by omega) h0)

/-- Gravity propagated upward: an empty cell has every cell above it empty,
in particular the top one. -/
theorem colOK_down (col : List ℕ) (hok : colOK col) :
    ∀ r, r < 6 → col.getD r 0 = 0 → col.getD 0 0 = 0 := by
  intro r
  induction r with
  | zero => exact fun _ h => h
  | succ k ih => intro hr h; exact ih (by omega) (hok k (by omega) h)

/-- Case analysis on `make_move`: either the state is unchanged, or a piece
was placed at the row found by the bottom-up scan of an in-range column,
and the player either stayed (terminal branches) or switched. -/
theorem makeMove_cases (s : C4State) (column : ℤ) :
    (makeMove s column).1 = s ∨
    ∃ r, findEmptyRow (s.board.getD column.toNat []) = some r ∧
      column.toNat ≤ 6 ∧
      (makeMove s column).1.board
        = s.board.set column.toNat
            ((s.board.getD column.toNat []).set r s.current_player) ∧
      ((makeMove s column).1.current_player = s.current_player ∨
        (makeMove s column).1.current_player = 3 - s.current_player) := by
  unfold makeMove
  split_ifs with hg
  · exact Or.inl rfl
  · have hc6 : column.toNat ≤ 6 := by push_neg at hg; omega
    rcases hfe : findEmptyRow (s.board.getD column.toNat []) with _ | r
    · simp only [hfe]
      left
      trivial
    · simp only [hfe]
      right
      refine ⟨r, rfl, hc6, ?_⟩
      split_ifs with hw hd
      · exact ⟨rfl, Or.inl rfl⟩
      · exact ⟨rfl, Or.inl rfl⟩
      · exact ⟨rfl, Or.inr rfl⟩

end Connect4

namespace Connect4

/-- `getD` on an all-zero column is always 0. -/
theorem getD_replicate_zero (n r : ℕ) : (List.replicate n (0 : ℕ)).getD r 0 = 0 := by
  rcases lt_or_ge r n with h | h
  · rw [List.getD_eq_getElem _ _ (by simpa using h)]
    exact List.getElem_replicate ..
  · exact List.getD_eq_default _ _ (by simpa using h)

/-- The reset state is well-formed. -/
theorem resetState_WF : WF resetState := by
  refine ⟨by simp [resetState], fun i hi => ?_, Or.inl rfl⟩
  have hcol : resetState.board.getD i [] = List.replicate 6 0 := by
    rw [List.getD_eq_getElem _ _ (by simp [resetState]; omega)]
    exact List.getElem_replicate ..
  rw [hcol]
  exact ⟨by simp, fun r _ _ => getD_replicate_zero 6 r⟩

/-- `make_move` preserves well-formedness: the placed piece lands on the
lowest empty row, so each column keeps its empty-above/full-below shape. -/
theorem makeMove_WF (s : C4State) (column : ℤ) (h : WF s) :
    WF (makeMove s column).1 := by
  obtain ⟨hlen, hcols, hcp⟩ := h
  have hp0 : s.current_player ≠ 0 := by rcases hcp with h1 | h2 <;> omega
  rcases makeMove_cases s column with heq | ⟨r, hfe, hc6, hboard, hplayer⟩
  · rw [heq]
    exact ⟨hlen, hcols, hcp⟩
  · obtain ⟨hr6, hr0, habove⟩ := findEmptyRow_some _ _ hfe
    set c := column.toNat with hc
    set colL := s.board.getD c [] with hcolL
    have hclen : colL.length = 6 := (hcols c (by omega)).1
    have hcok : colOK colL := (hcols c (by omega)).2
    refine ⟨?_, ?_, ?_⟩
    · rw [hboard]
      simp [hlen]
    · intro i hi
      rw [hboard]
      by_cases hic : i = c
      · subst hic
        rw [getD_set_self _ _ _ _ (by omega)]
        refine ⟨by simp [hclen], ?_⟩
        intro r'' hr'' hbelow
        by_cases h1 : r'' = r
        · subst h1
          rw [getD_set_ne _ _ _ _ _ (by omega)] at hbelow
          exact absurd hbelow (habove hr'')
        · by_cases h2 : r'' + 1 = r
          · rw [h2, getD_set_self _ _ _ _ (by omega)] at hbelow
            exact absurd hbelow hp0
          · rw [getD_set_ne _ _ _ _ _ h2] at hbelow
            rw [getD_set_ne _ _ _ _ _ h1]
            exact hcok r'' hr'' hbelow
      · rw [getD_set_ne _ _ _ _ _ hic]
        exact hcols i hi
    · rcases hplayer with hpl | hpl <;> rw [hpl]
      · exact hcp
      · rcases hcp with h1 | h2
        · rw [h1]; right; rfl
        · rw [h2]; left; rfl

/-- Every reachable state is well-formed. -/
theorem reachable_WF (s : C4State) (hs : Reachable s) : WF s := by
  induction hs with
  | init => exact resetState_WF
  | step s column _ ih => exact makeMove_WF s column ih

end Connect4

open Connect4 in
/-- C8: along every sequence of `make_move` calls from `reset_game`, no
occupied cell ever has an empty cell below it in its column (each piece is
placed on the lowest empty row), and for an in-range column of a live game
`make_move` succeeds exactly when the column's top cell (row 0) is empty. -/
theorem C8_gravity_invariant (s : C4State) (hs : Reachable s) :
    (∀ c r r', r < r' → r' < 6 →
      cell s.board c r ≠ 0 → cell s.board c r' ≠ 0) ∧
    (∀ column : ℤ, 0 ≤ column → column ≤ 6 → s.game_over = false →
      ((makeMove s column).2 = true ↔ cell s.board column.toNat 0 = 0)) := by
  obtain ⟨hlen, hcols, _⟩ := reachable_WF s hs
  constructor
  · intro c r r' hrr hr6 hne
    by_cases hc : c < 7
    · exact colOK_up _ (hcols c hc).2 r' r (le_of_lt hrr) hr6 hne
    · exfalso
      apply hne
      unfold cell
      rw [List.getD_eq_default _ _ (by omega : s.board.length ≤ c)]
      simp
  · intro column h0c h6c hgo
    set c := column.toNat with hcdef
    have hc7 : c < 7 := by omega
    have hcok := (hcols c hc7).2
    unfold makeMove
    rw [if_neg (by simp [hgo]; omega)]
    rcases hfe : findEmptyRow (s.board.getD c []) with _ | r
    · simp only [hfe]
      have htop : cell s.board c 0 ≠ 0 := findEmptyRow_none _ hfe 0 (by omega)
      simp [htop]
    · simp only [hfe]
      have htop : cell s.board c 0 = 0 := by
        obtain ⟨hr6, hr0, _⟩ := findEmptyRow_some _ _ hfe
        exact colOK_down _ hcok r hr6 hr0
      split_ifs <;> simp [htop]

namespace Connect4

/-- The position after two moves in column 3 (player 1 at row 5, player 2
at row 4). -/
def twoMoves : C4State := (makeMove (makeMove resetState 3).1 3).1

end Connect4

open Connect4 in
/-- Witness for C8: after two pieces drop in column 3 the piece at row 4
sits on an occupied row 5, and playing column 0 succeeds since its top
cell is empty. -/
theorem C8_gravity_invariant_witness :
    cell twoMoves.board 3 5 ≠ 0 ∧
    ((makeMove twoMoves 0).2 = true ↔ cell twoMoves.board 0 0 = 0) :=
  have h := C8_gravity_invariant twoMoves
    (Reachable.step _ 3 (Reachable.step _ 3 Reachable.init))
  ⟨h.1 3 4 5 (by decide) (by decide) (by decide),
   h.2 0 (by decide) (by decide) (by decide)⟩
